import Mathlib

/-!
talm: CRI client lifecycle and the `dmesg` command.

A shallow embedding of

* `internal/pkg/cri/client.go` (`NewClient`, `Client.Close`, the `newClientPprof`
  leak profile), and
* `pkg/commands/imported_dmesg.go` (`dmesgCmd.RunE`, its per-chunk handler and the
  `PreRunE` hook),

followed by the theorems that settle claims C1 to C10 of the specification.

Conventions.  A Go `error` is `Option GoError` (`none` is `nil`).  A Go panic is the
`Except.error` branch of an `Except String _` result.  External libraries (gRPC,
`runtime/pprof`, cobra, the Talos helpers) are either parameters of the definitions or
small models of their documented behaviour; each such model says so.
-/

namespace Go

/-- Go error values as this program builds them: an error handed over by an external
library (`base`), or the `*fmt.wrapError` that `fmt.Errorf` builds for a `%w` verb. -/
inductive GoError where
  | base (msg : String)
  | wrapError (msg : String) (err : GoError)
  deriving DecidableEq, Repr

/-- The `Error()` method. -/
def GoError.Error : GoError → String
  | .base msg => msg
  | .wrapError msg _ => msg

/-- The `Unwrap()` method (`errors.Unwrap`). -/
def GoError.Unwrap : GoError → Option GoError
  | .base _ => none
  | .wrapError _ err => some err

/-- The call `fmt.Errorf(lead + "%w", err)` for a literal `lead` without verbs: the message
is `lead` followed by `err.Error()`, and the result wraps `err`. -/
def Errorf (lead : String) (err : GoError) : GoError :=
  .wrapError (lead ++ err.Error) err

end Go

namespace cri

open Go

/-- A `*grpc.ClientConn` that is not nil, identified by the channel it stands for. -/
structure ClientConn where
  id : Nat
  deriving DecidableEq, Repr

/-- The dial options `NewClient` passes to `grpc.NewClient`. -/
inductive DialOption where
  | WithTransportCredentials_insecure
  | WithDefaultCallOptions_MaxCallRecvMsgSize (n : Nat)
  | WithContextDialer_DialUnix
  | WithSharedWriteBuffer (val : Bool)
  deriving DecidableEq, Repr

/-- The constant `maxMsgSize`: 16MB as the message size limit. -/
def maxMsgSize : Nat := 1024 * 1024 * 16

/-- The gRPC transport, an external collaborator: `NewClient` is `grpc.NewClient`
(`Except.error` is its non-nil `err`), `Close` is `(*grpc.ClientConn).Close`.  Both act on a
transport state `σ` the program never inspects, so every behaviour of the transport,
including a close that fails and a second close that answers differently from the first,
is one choice of these two functions. -/
structure Transport (σ : Type) where
  NewClient : σ → String → List DialOption → σ × Except GoError ClientConn
  Close : σ → ClientConn → σ × Option GoError

/-- The stub `runtimeapi.NewRuntimeServiceClient(cc)` returns: it stores `cc`. -/
structure RuntimeServiceClient where
  cc : ClientConn
  deriving DecidableEq, Repr

/-- The stub `runtimeapi.NewImageServiceClient(cc)` returns: it stores `cc`. -/
structure ImageServiceClient where
  cc : ClientConn
  deriving DecidableEq, Repr

/-- Models `runtimeapi.NewRuntimeServiceClient`. -/
def NewRuntimeServiceClient (cc : ClientConn) : RuntimeServiceClient := ⟨cc⟩

/-- Models `runtimeapi.NewImageServiceClient`. -/
def NewImageServiceClient (cc : ClientConn) : ImageServiceClient := ⟨cc⟩

/-- The struct `Client` together with the address it was allocated at.  A handle is a
non-nil `*Client`; pointer identity is `addr`, and the fields are never written after
construction, so the record stands for the pointer. -/
structure Client where
  addr : Nat
  conn : ClientConn
  runtimeClient : RuntimeServiceClient
  imagesClient : ImageServiceClient
  deriving DecidableEq, Repr

/-- The map of a `pprof.Profile` created by `pprof.NewProfile`, as its set of keys.  The
keys of `newClientPprof` are `*Client` pointers, so a key is an address. -/
abbrev Profile := Finset Nat

/-- The method `(*pprof.Profile).Add(value, skip)`: it panics when the profile already holds
`value`, and stores it otherwise (the recorded stack is not modelled). -/
def Profile.Add (p : Profile) (value : Nat) : Except String Profile :=
  if value ∈ p then .error "pprof: Profile.Add of duplicate value"
  else .ok (insert value p)

/-- The method `(*pprof.Profile).Remove(value)`: `delete(p.m, value)`, which does nothing
when `value` is not a key. -/
def Profile.Remove (p : Profile) (value : Nat) : Profile :=
  p.erase value

/-- The method `(*pprof.Profile).Count()`: the number of tracked values. -/
def Profile.Count (p : Profile) : Nat :=
  p.card

/-- External effects of the package, in program order (a ghost log). -/
inductive Event where
  | grpcNewClient (endpoint : String)
  | profileAdd (addr : Nat)
  | profileRemove (addr : Nat)
  | connClose (conn : ClientConn)
  deriving DecidableEq, Repr

/-- The process state the package touches: the allocation frontier (`next` is the address
the next `&Client{...}` gets), the package variable `newClientPprof`, the state of the
transport, and the ghost log. -/
structure World (σ : Type) where
  next : Nat
  newClientPprof : Profile
  net : σ
  log : List Event

/-- Memory safety of the registry: every tracked pointer is the address of an object that
has been allocated.  The profile keeps its keys reachable, so a fresh allocation never
coincides with one of them. -/
def World.WF {σ : Type} (w : World σ) : Prop :=
  ∀ a ∈ w.newClientPprof, a < w.next

instance {σ : Type} (w : World σ) : Decidable w.WF := by
  unfold World.WF; infer_instance

/-- The options of the `grpc.NewClient` call in `NewClient`. -/
def dialOptions : List DialOption :=
  [ .WithTransportCredentials_insecure,
    .WithDefaultCallOptions_MaxCallRecvMsgSize maxMsgSize,
    .WithContextDialer_DialUnix,
    .WithSharedWriteBuffer true ]

/-- The function `NewClient(endpoint, _ time.Duration) (*Client, error)`.  The result is the
new world and the returned pair; `Except.error` is a panic (only `Profile.Add` can raise
one). -/
def NewClient {σ : Type} (t : Transport σ) (w : World σ) (endpoint : String) (_timeout : Int) :
    Except String (World σ × Option Client × Option GoError) :=
  match t.NewClient w.net endpoint dialOptions with
  | (net1, .error err) =>
    .ok ({ w with net := net1, log := w.log ++ [.grpcNewClient endpoint] },
         none, some (Errorf "error connecting to CRI: " err))
  | (net1, .ok conn) =>
    let res : Client :=
      { addr := w.next
        conn := conn
        runtimeClient := NewRuntimeServiceClient conn
        imagesClient := NewImageServiceClient conn }
    match Profile.Add w.newClientPprof res.addr with
    | .error msg => .error msg
    | .ok p =>
      .ok ({ next := w.next + 1
             newClientPprof := p
             net := net1
             log := w.log ++ [.grpcNewClient endpoint, .profileAdd res.addr] },
           some res, none)

/-- The method `(c *Client) Close() error`: `newClientPprof.Remove(c)` and then
`return c.conn.Close()`. -/
def Client.Close {σ : Type} (c : Client) (t : Transport σ) (w : World σ) :
    World σ × Option GoError :=
  let w1 : World σ :=
    { w with newClientPprof := Profile.Remove w.newClientPprof c.addr
             log := w.log ++ [.profileRemove c.addr] }
  let r := t.Close w1.net c.conn
  ({ w1 with net := r.1, log := w1.log ++ [.connClose c.conn] }, r.2)

/-- State of the sample transport: how many channels were created, which were closed. -/
structure SampleNet where
  made : Nat
  closed : List Nat
  deriving DecidableEq, Repr

/-- A sample transport that behaves like gRPC: it refuses the empty endpoint, numbers the
channels it creates, closes a channel once, and answers a further close of the same channel
with `ErrClientConnClosing`. -/
def sampleTransport : Transport SampleNet where
  NewClient := fun s endpoint _ =>
    if endpoint.length = 0 then (s, .error (.base "empty target"))
    else ({ s with made := s.made + 1 }, .ok ⟨s.made⟩)
  Close := fun s conn =>
    if conn.id ∈ s.closed then (s, some (.base "grpc: the client connection is closing"))
    else ({ s with closed := conn.id :: s.closed }, none)

/-- A sample world: two objects allocated, the one at address `1` tracked, five channels
created so far. -/
def sampleWorld : World SampleNet :=
  { next := 2, newClientPprof := {1}, net := ⟨5, []⟩, log := [] }

/-- The handle `NewClient` returns from `sampleWorld`. -/
def sampleClient : Client :=
  { addr := 2, conn := ⟨5⟩, runtimeClient := ⟨⟨5⟩⟩, imagesClient := ⟨⟨5⟩⟩ }

/-- The world `NewClient` leaves behind from `sampleWorld` for the endpoint
`unix:///run/containerd/containerd.sock`. -/
def sampleOpened : World SampleNet :=
  { next := 3, newClientPprof := {2, 1}, net := ⟨6, []⟩,
    log := [.grpcNewClient "unix:///run/containerd/containerd.sock", .profileAdd 2] }

end cri

namespace commands

open Go

/-- The message `common.Metadata` (an external declaration); the fields the stream reader
looks at. -/
structure Metadata where
  Hostname : String
  Error : String
  deriving DecidableEq, Repr

/-- The message `common.Data` behind a non-nil `*common.Data`: `Bytes` is a Go byte slice,
`none` for the nil slice and `some []` for an empty slice that is not nil. -/
structure Data where
  Metadata : Option Metadata
  Bytes : Option (List UInt8)
  deriving DecidableEq, Repr

/-- The bytes of a Go string. -/
def stringBytes (s : String) : List UInt8 :=
  s.toUTF8.data.toList

/-- The call `fmt.Printf("%s: %s", node, bytes)`: what it appends to standard output.  The
verb `%s` writes a string, and a byte slice, uninterpreted. -/
def Printf_dmesg (stdout : List UInt8) (node : String) (bytes : List UInt8) : List UInt8 :=
  stdout ++ (stringBytes node ++ stringBytes ": " ++ bytes)

/-- The per-chunk handler `dmesgCmd.RunE` passes to `helpers.ReadGRPCStream`, as a function
of standard output: the new output and the returned error. -/
def dmesgHandler (stdout : List UInt8) (data : Data) (node : String) (_multipleNodes : Bool) :
    List UInt8 × Option GoError :=
  match data.Bytes with
  | some bytes => (Printf_dmesg stdout node bytes, none)
  | none => (stdout, none)

/-- The part of the process state `PreRunE` reads: `GlobalArgs.Nodes`,
`GlobalArgs.Endpoints`, and in `rest` everything else that
`processModelineAndUpdateGlobals` may read or write. -/
structure Globals (ρ : Type) where
  Nodes : List String
  Endpoints : List String
  rest : ρ

/-- One call of `processModelineAndUpdateGlobals`, as recorded in the ghost call log: the
config file and the three boolean arguments. -/
structure ModelineCall where
  configFile : String
  nodesFromArgs : Bool
  endpointsFromArgs : Bool
  fourth : Bool
  deriving DecidableEq, Repr

/-- The type of `processModelineAndUpdateGlobals`, which is declared elsewhere in the
package: it takes the file and three flags, may change the globals, and returns an error. -/
abbrev ProcessModeline (ρ : Type) :=
  String → Bool → Bool → Bool → Globals ρ → Globals ρ × Option GoError

/-- The `for ... range dmesgCmdFlags.configFiles` loop of `PreRunE`: the globals, the ghost
log of the calls made and the returned error. -/
def PreRunE.loop {ρ : Type} (processModelineAndUpdateGlobals : ProcessModeline ρ)
    (nodesFromArgs endpointsFromArgs : Bool) :
    List String → Globals ρ → List ModelineCall → Globals ρ × List ModelineCall × Option GoError
  | [], g, calls => (g, calls, none)
  | configFile :: more, g, calls =>
    match processModelineAndUpdateGlobals configFile nodesFromArgs endpointsFromArgs false g with
    | (g1, some err) =>
      (g1, calls ++ [⟨configFile, nodesFromArgs, endpointsFromArgs, false⟩], some err)
    | (g1, none) =>
      PreRunE.loop processModelineAndUpdateGlobals nodesFromArgs endpointsFromArgs more g1
        (calls ++ [⟨configFile, nodesFromArgs, endpointsFromArgs, false⟩])

/-- The hook `dmesgCmd.PreRunE`; `configFiles` is `dmesgCmdFlags.configFiles` and `g` holds
`GlobalArgs` at entry.  The arguments `cmd` and `args` are not used by the body. -/
def PreRunE {ρ : Type} (processModelineAndUpdateGlobals : ProcessModeline ρ)
    (configFiles : List String) (g : Globals ρ) :
    Globals ρ × List ModelineCall × Option GoError :=
  let nodesFromArgs := decide (g.Nodes.length > 0)
  let endpointsFromArgs := decide (g.Endpoints.length > 0)
  PreRunE.loop processModelineAndUpdateGlobals nodesFromArgs endpointsFromArgs configFiles g []

/-- One step of the reference, for flags fixed at entry: once a call has returned an error
keep that error and make no further call; otherwise call
`processModelineAndUpdateGlobals(file, nodesFromArgs, endpointsFromArgs, false)`. -/
def referenceStep {ρ : Type} (p : ProcessModeline ρ) (n e : Bool)
    (acc : Globals ρ × List ModelineCall × Option GoError) (file : String) :
    Globals ρ × List ModelineCall × Option GoError :=
  match acc with
  | (g1, calls, some err) => (g1, calls, some err)
  | (g1, calls, none) =>
    ((p file n e false g1).1, calls ++ [⟨file, n, e, false⟩], (p file n e false g1).2)

/-- The reference the specification gives for `PreRunE`, written from its words: fix the two
flags at entry (is `Nodes` non-empty, is `Endpoints` non-empty), then walk the files in list
order with `referenceStep`, starting without an error. -/
def PreRunE_reference {ρ : Type} (processModelineAndUpdateGlobals : ProcessModeline ρ)
    (configFiles : List String) (g : Globals ρ) :
    Globals ρ × List ModelineCall × Option GoError :=
  let nodesFromArgs := !g.Nodes.isEmpty
  let endpointsFromArgs := !g.Endpoints.isEmpty
  configFiles.foldl (referenceStep processModelineAndUpdateGlobals nodesFromArgs endpointsFromArgs)
    (g, [], none)

/-- A sample `processModelineAndUpdateGlobals`: the file `bad.yaml` fails, any other file
sets `Nodes` to the file name when the nodes did not come from the arguments. -/
def sampleProcess : ProcessModeline Unit :=
  fun file nodesFromArgs _ _ g =>
    if file = "bad.yaml" then (g, some (.base "modeline not found"))
    else if nodesFromArgs then (g, none)
    else ({ g with Nodes := [file] }, none)

end commands

namespace dispatch

open Go commands

/-- Modelled from the spec: NodeTarget (section 3), an endpoint descriptor, address plus
logical node identity.  The dispatcher behind `WithClient` is not part of the sources at
hand; sections 3, 4.3, 4.4 and 7 of the specification describe it. -/
structure NodeTarget where
  address : String
  node : String
  deriving DecidableEq, Repr

/-- Modelled from the spec: the error kinds of section 7. -/
inductive ErrorKind where
  | ConnectionError
  | TransportError
  | HandlerError
  | RegistryInvariantError
  | CancellationError
  deriving DecidableEq, Repr

/-- Modelled from the spec: the terminal status of a branch (section 3, DispatchOutcome):
success, failure with error kind and message, or cancelled (section 4.4, step 5). -/
inductive Status where
  | success
  | failure (kind : ErrorKind) (message : String)
  | cancelled
  deriving DecidableEq, Repr

/-- Modelled from the spec: DispatchOutcome, the per-NodeTarget terminal status. -/
structure DispatchOutcome where
  target : NodeTarget
  status : Status
  deriving DecidableEq, Repr

/-- Modelled from the spec: StreamChunk, a unit of payload, the identity of its originating
NodeTarget, and the flag telling whether the invocation spans several targets. -/
structure StreamChunk where
  payload : Data
  origin : NodeTarget
  multipleNodes : Bool
  deriving DecidableEq, Repr

/-- Modelled from the spec: what one receive on a stream yields before its natural end, a
chunk or a transport error (section 4.3).  A stream is a list of these; the end of the list
is the natural end of data. -/
inductive StreamItem where
  | chunk (payload : Data)
  | transportError (message : String)
  deriving DecidableEq, Repr

/-- Modelled from the spec: the world a dispatch runs against, per target: whether opening
a connection to it succeeds (`Except.error` carries the ConnectionError message), and what
`invoke` yields on it, a stream or a failure. -/
structure Env where
  Open : NodeTarget → Except String Unit
  invoke : NodeTarget → Except (ErrorKind × String) (List StreamItem)

/-- Modelled from the spec: the state of one branch of `Dispatch` (section 4.4): not yet
connected, draining its stream with some items still to receive, or finished with its
terminal outcome. -/
inductive Branch where
  | pending (target : NodeTarget)
  | draining (target : NodeTarget) (rest : List StreamItem)
  | finished (outcome : DispatchOutcome)
  deriving DecidableEq, Repr

/-- Modelled from the spec: the target a branch works for. -/
def Branch.target : Branch → NodeTarget
  | .pending t => t
  | .draining t _ => t
  | .finished o => o.target

/-- Modelled from the spec: the terminal outcome of a branch, once it has one. -/
def Branch.outcome? : Branch → Option DispatchOutcome
  | .finished o => some o
  | _ => none

/-- Modelled from the spec: has the branch produced its terminal outcome. -/
def Branch.isFinished : Branch → Bool
  | .finished _ => true
  | _ => false

/-- Modelled from the spec: what one scheduling step of a branch produces: its next state,
the chunks it forwards, the outcomes it records and the connections it opens. -/
structure StepResult where
  branch : Branch
  chunks : List StreamChunk
  outcomes : List DispatchOutcome
  opened : List NodeTarget

/-- Modelled from the spec: a branch ends with outcome `o`. -/
def finish (o : DispatchOutcome) : StepResult :=
  { branch := .finished o, chunks := [], outcomes := [o], opened := [] }

/-- Modelled from the spec: one step of a branch, from one suspension point to the next
(sections 4.3, 4.4 and 5).  A finished branch does nothing.  A branch that observes a
requested cancellation records "cancelled".  A pending branch opens its connection and
invokes the call; a failure of either ends the branch with a failure outcome.  A draining
branch receives one item: the natural end gives success, a transport error a TransportError
failure, and a chunk is tagged with the branch's own target and handed to `onChunk`, whose
error ends the branch with a HandlerError. -/
def stepBranch (env : Env) (onChunk : StreamChunk → Option String) (multi cancel : Bool) :
    Branch → StepResult
  | .finished o => { branch := .finished o, chunks := [], outcomes := [], opened := [] }
  | .pending t =>
    if cancel then finish ⟨t, .cancelled⟩
    else
      match env.Open t with
      | .error message => finish ⟨t, .failure .ConnectionError message⟩
      | .ok _ =>
        match env.invoke t with
        | .error (kind, message) =>
          { finish ⟨t, .failure kind message⟩ with opened := [t] }
        | .ok stream =>
          { branch := .draining t stream, chunks := [], outcomes := [], opened := [t] }
  | .draining t rest =>
    if cancel then finish ⟨t, .cancelled⟩
    else
      match rest with
      | [] => finish ⟨t, .success⟩
      | .transportError message :: _ => finish ⟨t, .failure .TransportError message⟩
      | .chunk payload :: more =>
        match onChunk ⟨payload, t, multi⟩ with
        | some message => finish ⟨t, .failure .HandlerError message⟩
        | none =>
          { branch := .draining t more, chunks := [⟨payload, t, multi⟩], outcomes := [],
            opened := [] }

/-- Modelled from the spec: let the branch at position `i` take one step (no branch there:
nothing happens); the other branches are left as they are.  The result is the new branches
and what the step produced: chunks, outcomes, opened connections. -/
def stepAt (f : Branch → StepResult) :
    Nat → List Branch → List Branch × List StreamChunk × List DispatchOutcome × List NodeTarget
  | _, [] => ([], [], [], [])
  | 0, b :: bs => ((f b).branch :: bs, (f b).chunks, (f b).outcomes, (f b).opened)
  | i + 1, b :: bs => (b :: (stepAt f i bs).1, (stepAt f i bs).2)

/-- Modelled from the spec: the state of a dispatch: its branches, one per target, the
merged output sequence, the outcome collection, the connections opened so far, and whether
the caller has requested cancellation. -/
structure DState where
  branches : List Branch
  output : List StreamChunk
  outcomes : List DispatchOutcome
  opened : List NodeTarget
  cancelRequested : Bool

/-- Modelled from the spec: what the scheduler does next: run one branch to its next
suspension point, or deliver the caller's cancellation request. -/
inductive Tick where
  | run (i : Nat)
  | cancel
  deriving DecidableEq, Repr

/-- Modelled from the spec: one scheduling step of the dispatcher.  Running a branch appends
what it produced to the merged output and to the outcome collection. -/
def DState.tick (env : Env) (onChunk : StreamChunk → Option String) (multi : Bool)
    (s : DState) : Tick → DState
  | .cancel => { s with cancelRequested := true }
  | .run i =>
    { branches := (stepAt (stepBranch env onChunk multi s.cancelRequested) i s.branches).1
      output :=
        s.output ++
          (stepAt (stepBranch env onChunk multi s.cancelRequested) i s.branches).2.1
      outcomes :=
        s.outcomes ++
          (stepAt (stepBranch env onChunk multi s.cancelRequested) i s.branches).2.2.1
      opened :=
        s.opened ++
          (stepAt (stepBranch env onChunk multi s.cancelRequested) i s.branches).2.2.2
      cancelRequested := s.cancelRequested }

/-- Modelled from the spec: run a schedule, one interleaving of the branches. -/
def DState.run (env : Env) (onChunk : StreamChunk → Option String) (multi : Bool)
    (sched : List Tick) (s : DState) : DState :=
  sched.foldl (DState.tick env onChunk multi) s

/-- Modelled from the spec: the dispatch starts with one pending branch per target. -/
def DState.init (targets : List NodeTarget) : DState :=
  { branches := targets.map .pending, output := [], outcomes := [], opened := [],
    cancelRequested := false }

/-- Modelled from the spec: what `Dispatch` hands back: the merged chunk sequence, the
outcomes, and the connections it closes on completion, which are those it opened. -/
structure DispatchResult where
  output : List StreamChunk
  outcomes : List DispatchOutcome
  closed : List NodeTarget
  deriving DecidableEq, Repr

/-- Modelled from the spec: `Dispatch(targets, invoke)` of section 4.4 under the
interleaving `sched`.  It is complete once every branch has a terminal outcome; `none`
means the schedule ended before that. -/
def Dispatch (env : Env) (onChunk : StreamChunk → Option String) (targets : List NodeTarget)
    (sched : List Tick) : Option DispatchResult :=
  let s := DState.run env onChunk (decide (targets.length > 1)) sched (DState.init targets)
  if s.branches.all Branch.isFinished then some ⟨s.output, s.outcomes, s.opened⟩ else none

/-- Modelled from the spec: `Drain` of section 4.3 run on its own over a whole stream of
target `t`: the status it ends with. -/
def drainStatus (onChunk : StreamChunk → Option String) (multi : Bool) (t : NodeTarget) :
    List StreamItem → Status
  | [] => .success
  | .transportError message :: _ => .failure .TransportError message
  | .chunk payload :: more =>
    match onChunk ⟨payload, t, multi⟩ with
    | some message => .failure .HandlerError message
    | none => drainStatus onChunk multi t more

/-- Modelled from the spec: the status the branch of target `t` ends with when it runs on
its own, without cancellation: it reads nothing but what `env` says about `t`. -/
def soloStatus (env : Env) (onChunk : StreamChunk → Option String) (multi : Bool)
    (t : NodeTarget) : Status :=
  match env.Open t with
  | .error message => .failure .ConnectionError message
  | .ok _ =>
    match env.invoke t with
    | .error (kind, message) => .failure kind message
    | .ok stream => drainStatus onChunk multi t stream

/-- Modelled from the spec: the number of steps a branch can still take. -/
def Branch.fuel (env : Env) : Branch → Nat
  | .finished _ => 0
  | .draining _ rest => rest.length + 1
  | .pending t =>
    match env.invoke t with
    | .ok stream => stream.length + 2
    | .error _ => 1

/-- Modelled from the spec: the steps all branches together can still take. -/
def totalFuel (env : Env) (bs : List Branch) : Nat :=
  (bs.map (Branch.fuel env)).sum

/-- Modelled from the spec: the branch is on course.  A finished branch holds the status
its target gets on its own, or "cancelled" when cancellation was requested (`c`); a draining
branch will reach that status from the items it still has to receive. -/
def Branch.OK (env : Env) (onChunk : StreamChunk → Option String) (multi c : Bool) :
    Branch → Prop
  | .finished o =>
    o.status = soloStatus env onChunk multi o.target ∨ (c = true ∧ o.status = .cancelled)
  | .pending _ => True
  | .draining t rest => drainStatus onChunk multi t rest = soloStatus env onChunk multi t

/-- Modelled from the spec: the invariant of a dispatch over `targets` (section 3,
invariant 3): the branches stand for the targets, position by position; the outcome
collection holds exactly the outcomes of the finished branches; every branch is on
course. -/
def DState.Inv (env : Env) (onChunk : StreamChunk → Option String) (multi : Bool)
    (targets : List NodeTarget) (s : DState) : Prop :=
  s.branches.map Branch.target = targets ∧
  List.Perm s.outcomes (s.branches.filterMap Branch.outcome?) ∧
  ∀ b ∈ s.branches, b.OK env onChunk multi s.cancelRequested

/-- The per-chunk handler of `dmesgCmd.RunE` as the `onChunk` of a dispatch: the error it
returns for a chunk (its output goes to standard output). -/
def dmesgOnChunk (c : StreamChunk) : Option String :=
  (dmesgHandler [] c.payload c.origin.node c.multipleNodes).2.map GoError.Error

/-- A sample environment: node `b` refuses the connection, every other node streams two
log lines. -/
def sampleEnv : Env where
  Open := fun t => if t.node = "b" then .error "connection refused" else .ok ()
  invoke := fun _ => .ok [.chunk ⟨none, some [49]⟩, .chunk ⟨none, some [50]⟩]

end dispatch

/-! ## Theorems: the CRI client and its leak registry -/

namespace cri

open Go

/-- When the transport refuses the endpoint, `NewClient` returns the wrapped error and
touches neither the registry nor the allocator. -/
theorem NewClient_of_dial_error {σ : Type} (t : Transport σ) (w : World σ) (endpoint : String)
    (timeout : Int) (net1 : σ) (err : GoError)
    (hd : t.NewClient w.net endpoint dialOptions = (net1, .error err)) :
    NewClient t w endpoint timeout =
      .ok ({ w with net := net1, log := w.log ++ [.grpcNewClient endpoint] },
           none, some (Errorf "error connecting to CRI: " err)) := by
  unfold NewClient
  rw [hd]

/-- When the transport yields a channel and the fresh address is not tracked, `NewClient`
tracks the new handle and returns it. -/
theorem NewClient_of_dial_ok {σ : Type} (t : Transport σ) (w : World σ) (endpoint : String)
    (timeout : Int) (net1 : σ) (conn : ClientConn)
    (hd : t.NewClient w.net endpoint dialOptions = (net1, .ok conn))
    (hfresh : w.next ∉ w.newClientPprof) :
    NewClient t w endpoint timeout =
      .ok ({ next := w.next + 1
             newClientPprof := insert w.next w.newClientPprof
             net := net1
             log := w.log ++ [.grpcNewClient endpoint, .profileAdd w.next] },
           some { addr := w.next
                  conn := conn
                  runtimeClient := NewRuntimeServiceClient conn
                  imagesClient := NewImageServiceClient conn }, none) := by
  unfold NewClient
  rw [hd]
  simp [Profile.Add, hfresh]

/-- In a well-formed world the address of the next allocation is not tracked. -/
theorem World.WF.fresh {σ : Type} {w : World σ} (hwf : w.WF) : w.next ∉ w.newClientPprof :=
  fun h => Nat.lt_irrefl _ (hwf _ h)

/-- Every `NewClient` result with a nil error, from a well-formed world, is the success
branch: the handle is the fresh object and the registry gained exactly its address. -/
theorem NewClient_success_inv {σ : Type} (t : Transport σ) (w : World σ) (hwf : w.WF)
    (endpoint : String) (timeout : Int) (w1 : World σ) (oc : Option Client)
    (h : NewClient t w endpoint timeout = .ok (w1, oc, none)) :
    ∃ conn,
      (t.NewClient w.net endpoint dialOptions).2 = .ok conn ∧
      oc = some { addr := w.next
                  conn := conn
                  runtimeClient := NewRuntimeServiceClient conn
                  imagesClient := NewImageServiceClient conn } ∧
      w1 = { next := w.next + 1
             newClientPprof := insert w.next w.newClientPprof
             net := (t.NewClient w.net endpoint dialOptions).1
             log := w.log ++ [.grpcNewClient endpoint, .profileAdd w.next] } := by
  rcases hd : t.NewClient w.net endpoint dialOptions with ⟨net1, r⟩
  cases r with
  | error err =>
    rw [NewClient_of_dial_error t w endpoint timeout net1 err hd] at h
    simp at h
  | ok conn =>
    rw [NewClient_of_dial_ok t w endpoint timeout net1 conn hd hwf.fresh] at h
    simp only [Except.ok.injEq, Prod.mk.injEq, and_true] at h
    exact ⟨conn, rfl, h.2.symm, h.1.symm⟩

/-- `NewClient` keeps the world well formed. -/
theorem NewClient_preserves_WF {σ : Type} (t : Transport σ) (w : World σ) (hwf : w.WF)
    (endpoint : String) (timeout : Int) (w1 : World σ) (oc : Option Client)
    (oe : Option GoError) (h : NewClient t w endpoint timeout = .ok (w1, oc, oe)) : w1.WF := by
  rcases hd : t.NewClient w.net endpoint dialOptions with ⟨net1, r⟩
  cases r with
  | error err =>
    rw [NewClient_of_dial_error t w endpoint timeout net1 err hd] at h
    simp only [Except.ok.injEq, Prod.mk.injEq] at h
    rw [← h.1]
    exact hwf
  | ok conn =>
    rw [NewClient_of_dial_ok t w endpoint timeout net1 conn hd hwf.fresh] at h
    simp only [Except.ok.injEq, Prod.mk.injEq] at h
    rw [← h.1]
    intro a ha
    simp only [Finset.mem_insert] at ha
    rcases ha with rfl | ha
    · exact Nat.lt_succ_self _
    · exact Nat.lt_succ_of_lt (hwf a ha)

/-- `Close` keeps the world well formed. -/
theorem Close_preserves_WF {σ : Type} (t : Transport σ) (w : World σ) (hwf : w.WF)
    (c : Client) : (c.Close t w).1.WF := by
  intro a ha
  simp only [Client.Close, Profile.Remove, Finset.mem_erase] at ha
  exact hwf a ha.2

/-- C1: from a well-formed world with registry `R`, when `NewClient` succeeds and returns
the handle `c`, one `c.Close()` afterwards (whatever the transport state has become in
between, and whatever the transport's close answers) leaves the registry equal to `R`, so
the tracked count is back at its value before `NewClient`. -/
theorem C1_open_close_restores_registry {σ : Type} (t : Transport σ) (w : World σ)
    (hwf : w.WF) (endpoint : String) (timeout : Int) (w1 : World σ) (c : Client)
    (hopen : NewClient t w endpoint timeout = .ok (w1, some c, none)) :
    (c.Close t w1).1.newClientPprof = w.newClientPprof ∧
    Profile.Count (c.Close t w1).1.newClientPprof = Profile.Count w.newClientPprof ∧
    ∀ (net2 : σ) (log2 : List Event),
      (c.Close t { w1 with net := net2, log := log2 }).1.newClientPprof = w.newClientPprof := by
  obtain ⟨conn, -, hc, hw1⟩ := NewClient_success_inv t w hwf endpoint timeout w1 (some c) hopen
  have hc2 : c.addr = w.next := by
    rw [Option.some.injEq] at hc
    rw [hc]
  have key : ∀ (net2 : σ) (log2 : List Event),
      (c.Close t { w1 with net := net2, log := log2 }).1.newClientPprof = w.newClientPprof := by
    intro net2 log2
    simp only [Client.Close, Profile.Remove, hc2, hw1]
    exact Finset.erase_insert hwf.fresh
  have h1 : (c.Close t w1).1.newClientPprof = w.newClientPprof := key w1.net w1.log
  exact ⟨h1, by rw [h1], key⟩

/-- Witness for C1: the sample world, the containerd endpoint and the sample handle. -/
theorem C1_open_close_restores_registry_witness :
    sampleWorld.WF ∧
    NewClient sampleTransport sampleWorld "unix:///run/containerd/containerd.sock" 0 =
      .ok (sampleOpened, some sampleClient, none) ∧
    (sampleClient.Close sampleTransport sampleOpened).1.newClientPprof =
      sampleWorld.newClientPprof :=
  ⟨by decide, rfl,
   (C1_open_close_restores_registry sampleTransport sampleWorld (by decide)
      "unix:///run/containerd/containerd.sock" 0 sampleOpened sampleClient rfl).1⟩

/-- C2 fails as stated: in the sample run (open, close, close) the second `Close` returns
exactly what the transport's own close returns for that call, gRPC's "connection is
closing" error; the registry step contributes no error and changes nothing. -/
theorem C2_second_close_reports_only_transport :
    NewClient sampleTransport sampleWorld "unix:///run/containerd/containerd.sock" 0 =
      .ok (sampleOpened, some sampleClient, none) ∧
    (sampleClient.Close sampleTransport
        (sampleClient.Close sampleTransport sampleOpened).1).2 =
      some (.base "grpc: the client connection is closing") ∧
    (sampleClient.Close sampleTransport
        (sampleClient.Close sampleTransport sampleOpened).1).2 =
      (sampleTransport.Close (sampleClient.Close sampleTransport sampleOpened).1.net
        sampleClient.conn).2 ∧
    (sampleClient.Close sampleTransport
        (sampleClient.Close sampleTransport sampleOpened).1).1.newClientPprof =
      (sampleClient.Close sampleTransport sampleOpened).1.newClientPprof :=
  ⟨rfl, by decide, rfl, by decide⟩

/-- C2 (amended): for every handle `c`, the second of two consecutive `c.Close()` calls
raises no registry error: its registry step removes nothing and reports nothing (the
registry and the tracked count stay as the first close left them), and the call returns
exactly what the transport's own close returns for that second call. -/
theorem C2_second_close_returns_transport_result {σ : Type} (t : Transport σ) (w : World σ)
    (c : Client) :
    (c.Close t (c.Close t w).1).2 = (t.Close (c.Close t w).1.net c.conn).2 ∧
    (c.Close t (c.Close t w).1).1.newClientPprof = (c.Close t w).1.newClientPprof ∧
    Profile.Count (c.Close t (c.Close t w).1).1.newClientPprof =
      Profile.Count (c.Close t w).1.newClientPprof ∧
    (c.Close t (c.Close t w).1).1.log =
      (c.Close t w).1.log ++ [.profileRemove c.addr, .connClose c.conn] := by
  simp [Client.Close, Profile.Remove]

/-- C3: `Close` is idempotent on the registry.  For every world and every handle `c` the
registry after two `c.Close()` calls equals the registry after one; a `Close` of a handle
that is not tracked leaves the registry and its count as they are; and the two closes
together leave every other handle's entry (present or absent) as it was. -/
theorem C3_close_idempotent_on_registry {σ : Type} (t : Transport σ) (w : World σ)
    (c : Client) :
    (c.Close t (c.Close t w).1).1.newClientPprof = (c.Close t w).1.newClientPprof ∧
    Profile.Count (c.Close t (c.Close t w).1).1.newClientPprof =
      Profile.Count (c.Close t w).1.newClientPprof ∧
    (c.addr ∉ w.newClientPprof →
      (c.Close t w).1.newClientPprof = w.newClientPprof ∧
      Profile.Count (c.Close t w).1.newClientPprof = Profile.Count w.newClientPprof) ∧
    (∀ a, a ≠ c.addr →
      (a ∈ (c.Close t (c.Close t w).1).1.newClientPprof ↔ a ∈ w.newClientPprof)) := by
  refine ⟨?_, ?_, ?_, ?_⟩
  · simp [Client.Close, Profile.Remove]
  · simp [Client.Close, Profile.Remove]
  · intro h
    have h1 : (c.Close t w).1.newClientPprof = w.newClientPprof := by
      simp only [Client.Close, Profile.Remove]
      exact Finset.erase_eq_of_not_mem h
    exact ⟨h1, by rw [h1]⟩
  · intro a ha
    simp [Client.Close, Profile.Remove, ha]

/-- C4: from a well-formed world with registry `R`, when `NewClient` returns with a nil
error it returns a handle `c` that is already tracked: `c` was not in `R`, the registry is
`R` plus `c`, the count grew by one, every handle of `R` is still tracked, the registration
is the last effect before the return, and both stubs are built over the one channel the
transport returned, which is the channel `c` owns. -/
theorem C4_newclient_tracks_before_return {σ : Type} (t : Transport σ) (w : World σ)
    (hwf : w.WF) (endpoint : String) (timeout : Int) (w1 : World σ) (oc : Option Client)
    (hopen : NewClient t w endpoint timeout = .ok (w1, oc, none)) :
    ∃ c, oc = some c ∧
      c.addr ∉ w.newClientPprof ∧
      c.addr ∈ w1.newClientPprof ∧
      w1.newClientPprof = insert c.addr w.newClientPprof ∧
      Profile.Count w1.newClientPprof = Profile.Count w.newClientPprof + 1 ∧
      (∀ a ∈ w.newClientPprof, a ∈ w1.newClientPprof) ∧
      w1.log = w.log ++ [.grpcNewClient endpoint, .profileAdd c.addr] ∧
      (t.NewClient w.net endpoint dialOptions).2 = .ok c.conn ∧
      c.runtimeClient = NewRuntimeServiceClient c.conn ∧
      c.imagesClient = NewImageServiceClient c.conn ∧
      c.runtimeClient.cc = c.conn ∧ c.imagesClient.cc = c.conn := by
  obtain ⟨conn, hconn, hc, hw1⟩ := NewClient_success_inv t w hwf endpoint timeout w1 oc hopen
  refine ⟨_, hc, hwf.fresh, ?_, ?_, ?_, ?_, ?_, hconn, rfl, rfl, rfl, rfl⟩
  · rw [hw1]; exact Finset.mem_insert_self _ _
  · rw [hw1]
  · rw [hw1]; exact Finset.card_insert_of_not_mem hwf.fresh
  · intro a ha
    rw [hw1]; exact Finset.mem_insert_of_mem ha
  · rw [hw1]

/-- Witness for C4: the sample open. -/
theorem C4_newclient_tracks_before_return_witness :
    sampleWorld.WF ∧
    NewClient sampleTransport sampleWorld "unix:///run/containerd/containerd.sock" 0 =
      .ok (sampleOpened, some sampleClient, none) ∧
    ∃ c, some sampleClient = some c ∧
      c.addr ∉ sampleWorld.newClientPprof ∧
      c.addr ∈ sampleOpened.newClientPprof ∧
      sampleOpened.newClientPprof = insert c.addr sampleWorld.newClientPprof ∧
      Profile.Count sampleOpened.newClientPprof =
        Profile.Count sampleWorld.newClientPprof + 1 ∧
      (∀ a ∈ sampleWorld.newClientPprof, a ∈ sampleOpened.newClientPprof) ∧
      sampleOpened.log = sampleWorld.log ++
        [.grpcNewClient "unix:///run/containerd/containerd.sock", .profileAdd c.addr] ∧
      (sampleTransport.NewClient sampleWorld.net "unix:///run/containerd/containerd.sock"
        dialOptions).2 = .ok c.conn ∧
      c.runtimeClient = NewRuntimeServiceClient c.conn ∧
      c.imagesClient = NewImageServiceClient c.conn ∧
      c.runtimeClient.cc = c.conn ∧ c.imagesClient.cc = c.conn :=
  ⟨by decide, rfl,
   C4_newclient_tracks_before_return sampleTransport sampleWorld (by decide)
     "unix:///run/containerd/containerd.sock" 0 sampleOpened (some sampleClient) rfl⟩

/-- C5: from a well-formed world `NewClient` returns (it does not panic), and it returns a
non-nil error exactly when `grpc.NewClient` fails for the endpoint.  In that case the handle
is nil, the error wraps the transport's error (its message is "error connecting to CRI: "
followed by the transport's message, and `Unwrap` gives the transport's error back), and
the registry is as it was.  The timeout argument does not influence the result. -/
theorem C5_newclient_error_iff_dial_fails {σ : Type} (t : Transport σ) (w : World σ)
    (hwf : w.WF) (endpoint : String) (timeout : Int) :
    ∃ w1 oc oe, NewClient t w endpoint timeout = .ok (w1, oc, oe) ∧
      (oe ≠ none ↔ ∃ err, (t.NewClient w.net endpoint dialOptions).2 = .error err) ∧
      (oe = none ↔ oc ≠ none) ∧
      (∀ err, (t.NewClient w.net endpoint dialOptions).2 = .error err →
        oc = none ∧
        oe = some (.wrapError ("error connecting to CRI: " ++ err.Error) err) ∧
        (∀ e, oe = some e →
          e.Error = "error connecting to CRI: " ++ err.Error ∧ e.Unwrap = some err) ∧
        w1.newClientPprof = w.newClientPprof ∧
        Profile.Count w1.newClientPprof = Profile.Count w.newClientPprof ∧
        w1.next = w.next) ∧
      (∀ timeout2 : Int, NewClient t w endpoint timeout2 = NewClient t w endpoint timeout) := by
  have htime : ∀ timeout2 : Int,
      NewClient t w endpoint timeout2 = NewClient t w endpoint timeout := fun _ => rfl
  rcases hd : t.NewClient w.net endpoint dialOptions with ⟨net1, r⟩
  cases r with
  | error err =>
    refine ⟨_, _, _, NewClient_of_dial_error t w endpoint timeout net1 err hd, ?_, ?_, ?_, htime⟩
    · simp
    · simp
    · intro err2 h2
      simp only [Except.error.injEq] at h2
      subst h2
      refine ⟨rfl, rfl, ?_, rfl, rfl, rfl⟩
      intro e he
      simp only [Errorf, Option.some.injEq] at he
      subst he
      exact ⟨rfl, rfl⟩
  | ok conn =>
    refine ⟨_, _, _, NewClient_of_dial_ok t w endpoint timeout net1 conn hd hwf.fresh,
      ?_, ?_, ?_, htime⟩
    · simp
    · simp
    · intro err2 h2
      simp at h2

/-- Witness for C5: the sample world and the empty endpoint, which the sample transport
refuses. -/
theorem C5_newclient_error_iff_dial_fails_witness :
    sampleWorld.WF ∧
    NewClient sampleTransport sampleWorld "" 0 =
      .ok ({ sampleWorld with log := [.grpcNewClient ""] }, none,
           some (.wrapError "error connecting to CRI: empty target" (.base "empty target"))) ∧
    ∃ w1 oc oe, NewClient sampleTransport sampleWorld "" 0 = .ok (w1, oc, oe) ∧
      (oe ≠ none ↔
        ∃ err, (sampleTransport.NewClient sampleWorld.net "" dialOptions).2 = .error err) ∧
      (oe = none ↔ oc ≠ none) ∧
      (∀ err, (sampleTransport.NewClient sampleWorld.net "" dialOptions).2 = .error err →
        oc = none ∧
        oe = some (.wrapError ("error connecting to CRI: " ++ err.Error) err) ∧
        (∀ e, oe = some e →
          e.Error = "error connecting to CRI: " ++ err.Error ∧ e.Unwrap = some err) ∧
        w1.newClientPprof = sampleWorld.newClientPprof ∧
        Profile.Count w1.newClientPprof = Profile.Count sampleWorld.newClientPprof ∧
        w1.next = sampleWorld.next) ∧
      (∀ timeout2 : Int, NewClient sampleTransport sampleWorld "" timeout2 =
        NewClient sampleTransport sampleWorld "" 0) :=
  ⟨by decide, rfl, C5_newclient_error_iff_dial_fails sampleTransport sampleWorld (by decide) "" 0⟩

/-- C6: for every world, handle `c` and transport, `c.Close()` first removes `c` from the
registry and then closes the channel (the log gains the removal followed by the channel
close, and the transport is run from the state it had before the call); afterwards `c` is
not tracked, every other handle's entry is as before, the allocator is untouched, and the
value returned is exactly the result of the transport's close, nil or not. -/
theorem C6_close_deregisters_then_returns_transport_result {σ : Type} (t : Transport σ)
    (w : World σ) (c : Client) :
    c.addr ∉ (c.Close t w).1.newClientPprof ∧
    (∀ a, a ≠ c.addr → (a ∈ (c.Close t w).1.newClientPprof ↔ a ∈ w.newClientPprof)) ∧
    (c.Close t w).1.newClientPprof = Profile.Remove w.newClientPprof c.addr ∧
    (c.Close t w).2 = (t.Close w.net c.conn).2 ∧
    (c.Close t w).1.net = (t.Close w.net c.conn).1 ∧
    (c.Close t w).1.log = w.log ++ [.profileRemove c.addr, .connClose c.conn] ∧
    (c.Close t w).1.next = w.next ∧
    (∀ err, (t.Close w.net c.conn).2 = some err →
      (c.Close t w).2 = some err ∧ c.addr ∉ (c.Close t w).1.newClientPprof) ∧
    ((t.Close w.net c.conn).2 = none → (c.Close t w).2 = none) := by
  refine ⟨?_, ?_, rfl, rfl, rfl, ?_, rfl, ?_, ?_⟩
  · simp [Client.Close, Profile.Remove]
  · intro a ha
    simp [Client.Close, Profile.Remove, ha]
  · simp [Client.Close]
  · intro err herr
    refine ⟨?_, ?_⟩
    · simp only [Client.Close]
      exact herr
    · simp [Client.Close, Profile.Remove]
  · intro h
    simp only [Client.Close]
    exact h

/-- C7: the registry is purely diagnostic.  For one world (allocator, transport state) and
any two registries `R1`, `R2` of allocated handles, `NewClient` returns from both (no
panic) with the same handle-or-error pair, and `Close` returns the same error and leaves
the same transport state, from `R1` as from `R2`. -/
theorem C7_results_independent_of_registry {σ : Type} (t : Transport σ) (w : World σ)
    (R1 R2 : Profile) (h1 : ∀ a ∈ R1, a < w.next) (h2 : ∀ a ∈ R2, a < w.next)
    (endpoint : String) (timeout : Int) (c : Client) :
    (∃ w1 w2 oc oe,
      NewClient t { w with newClientPprof := R1 } endpoint timeout = .ok (w1, oc, oe) ∧
      NewClient t { w with newClientPprof := R2 } endpoint timeout = .ok (w2, oc, oe) ∧
      w1.net = w2.net ∧ w1.next = w2.next) ∧
    (c.Close t { w with newClientPprof := R1 }).2 =
      (c.Close t { w with newClientPprof := R2 }).2 ∧
    (c.Close t { w with newClientPprof := R1 }).1.net =
      (c.Close t { w with newClientPprof := R2 }).1.net := by
  refine ⟨?_, rfl, rfl⟩
  have f1 : w.next ∉ R1 := fun h => Nat.lt_irrefl _ (h1 _ h)
  have f2 : w.next ∉ R2 := fun h => Nat.lt_irrefl _ (h2 _ h)
  rcases hd : t.NewClient w.net endpoint dialOptions with ⟨net1, r⟩
  cases r with
  | error err =>
    exact ⟨_, _, _, _,
      NewClient_of_dial_error t { w with newClientPprof := R1 } endpoint timeout net1 err hd,
      NewClient_of_dial_error t { w with newClientPprof := R2 } endpoint timeout net1 err hd,
      rfl, rfl⟩
  | ok conn =>
    exact ⟨_, _, _, _,
      NewClient_of_dial_ok t { w with newClientPprof := R1 } endpoint timeout net1 conn hd f1,
      NewClient_of_dial_ok t { w with newClientPprof := R2 } endpoint timeout net1 conn hd f2,
      rfl, rfl⟩

/-- Witness for C7: the sample world with the registries `{1}` and `{0, 1}`. -/
theorem C7_results_independent_of_registry_witness :
    (∀ a ∈ ({1} : Profile), a < sampleWorld.next) ∧
    (∀ a ∈ ({0, 1} : Profile), a < sampleWorld.next) ∧
    (NewClient sampleTransport { sampleWorld with newClientPprof := {1} }
        "unix:///run/containerd/containerd.sock" 0).map (fun r => r.2) =
      .ok (some sampleClient, none) ∧
    (NewClient sampleTransport { sampleWorld with newClientPprof := {0, 1} }
        "unix:///run/containerd/containerd.sock" 0).map (fun r => r.2) =
      .ok (some sampleClient, none) ∧
    (sampleClient.Close sampleTransport { sampleWorld with newClientPprof := {1} }).2 =
      (sampleClient.Close sampleTransport { sampleWorld with newClientPprof := {0, 1} }).2 :=
  ⟨by decide, by decide, rfl, rfl,
   (C7_results_independent_of_registry sampleTransport sampleWorld {1} {0, 1}
      (by decide) (by decide) "unix:///run/containerd/containerd.sock" 0 sampleClient).2.1⟩

end cri

/-! ## Theorems: the `dmesg` command -/

namespace commands

open Go

/-- Once the accumulator holds an error the reference fold no longer changes it. -/
theorem foldl_referenceStep_error {ρ : Type} (p : ProcessModeline ρ) (n e : Bool)
    (files : List String) (g : Globals ρ) (calls : List ModelineCall) (err : GoError) :
    files.foldl (referenceStep p n e) (g, calls, some err) = (g, calls, some err) := by
  induction files with
  | nil => rfl
  | cons f fs ih => rw [List.foldl_cons]; exact ih

/-- The loop of `PreRunE` and the fold of the reference agree from every accumulator. -/
theorem PreRunE_loop_eq_foldl {ρ : Type} (p : ProcessModeline ρ) (n e : Bool)
    (files : List String) (g : Globals ρ) (calls : List ModelineCall) :
    PreRunE.loop p n e files g calls =
      files.foldl (referenceStep p n e) (g, calls, none) := by
  induction files generalizing g calls with
  | nil => rfl
  | cons file more ih =>
    rw [PreRunE.loop, List.foldl_cons]
    rcases hp : p file n e false g with ⟨g1, r⟩
    cases r with
    | none =>
      simp only [referenceStep, hp]
      exact ih _ _
    | some err =>
      simp only [referenceStep, hp]
      exact (foldl_referenceStep_error p n e more _ _ err).symm

/-- The call log of the loop: it extends the log it started from by the calls for an initial
segment of the files, each with the flags the loop was given; the segment is the whole list
when no error is returned, and it is not empty when an error is returned. -/
theorem PreRunE_loop_calls {ρ : Type} (p : ProcessModeline ρ) (n e : Bool)
    (files : List String) (g : Globals ρ) (calls : List ModelineCall) :
    ∃ k, k ≤ files.length ∧
      (PreRunE.loop p n e files g calls).2.1 =
        calls ++ (files.take k).map (fun f => ⟨f, n, e, false⟩) ∧
      ((PreRunE.loop p n e files g calls).2.2 = none → k = files.length) ∧
      ((PreRunE.loop p n e files g calls).2.2 ≠ none → 0 < k) := by
  induction files generalizing g calls with
  | nil => exact ⟨0, le_refl _, by simp [PreRunE.loop], fun _ => rfl, by simp [PreRunE.loop]⟩
  | cons file more ih =>
    rw [PreRunE.loop]
    rcases hp : p file n e false g with ⟨g1, r⟩
    cases r with
    | some err =>
      exact ⟨1, by simp, by simp, by simp, by simp⟩
    | none =>
      obtain ⟨k, hk, h1, h2, -⟩ := ih g1 (calls ++ [⟨file, n, e, false⟩])
      refine ⟨k + 1, by simpa using hk, ?_, ?_, by simp⟩
      · simp only [h1, List.take_succ_cons, List.map_cons, List.append_assoc,
          List.singleton_append]
      · intro h
        simp only [List.length_cons, h2 h]

/-- C9: for every chunk `(data, node, multipleNodes)` and every state of standard output the
handler returns nil; with non-nil `data.Bytes` it appends exactly the bytes of `node`, then
": " (the bytes 58 and 32), then the chunk's bytes unmodified (for an empty slice just the
node and ": "); with nil `data.Bytes` it writes nothing; and what it does is the same for
either value of `multipleNodes` and for any `Metadata` of the chunk, so the only node that
tags the text is the `node` argument. -/
theorem C9_dmesg_handler (stdout : List UInt8) (data : Data) (node : String)
    (multipleNodes : Bool) :
    (dmesgHandler stdout data node multipleNodes).2 = none ∧
    (∀ bytes, data.Bytes = some bytes →
      (dmesgHandler stdout data node multipleNodes).1 =
        stdout ++ (stringBytes node ++ [58, 32] ++ bytes)) ∧
    (data.Bytes = some [] →
      (dmesgHandler stdout data node multipleNodes).1 = stdout ++ (stringBytes node ++ [58, 32])) ∧
    (data.Bytes = none → (dmesgHandler stdout data node multipleNodes).1 = stdout) ∧
    (∀ (flag : Bool) (md : Option Metadata),
      dmesgHandler stdout { data with Metadata := md } node flag =
        dmesgHandler stdout data node multipleNodes) := by
  have hsep : stringBytes ": " = [58, 32] := by decide
  refine ⟨?_, ?_, ?_, ?_, ?_⟩
  · unfold dmesgHandler
    cases data.Bytes <;> rfl
  · intro bytes h
    simp only [dmesgHandler, h, Printf_dmesg, hsep]
  · intro h
    simp only [dmesgHandler, h, Printf_dmesg, hsep, List.append_nil]
  · intro h
    simp only [dmesgHandler, h]
  · intro flag md
    rfl

/-- C10: `PreRunE` equals the reference.  Moreover every call it makes carries the two flags
computed from `GlobalArgs` at entry and `false`; the files called are an initial segment of
the list, in order; a nil result means every file was processed; a non-nil result means a call
was made, and files listed after the failing one change nothing (none of them is
processed); a first file that fails ends the hook with that error unchanged after that one
call; the empty list makes no call and returns nil; and in the sample run the second call
still gets `nodesFromArgs = false` although the first call has
filled `GlobalArgs.Nodes`. -/
theorem C10_PreRunE_refines_reference {ρ : Type} (p : ProcessModeline ρ)
    (configFiles : List String) (g : Globals ρ) :
    PreRunE p configFiles g = PreRunE_reference p configFiles g ∧
    (∀ call ∈ (PreRunE p configFiles g).2.1,
      call.nodesFromArgs = decide (g.Nodes.length > 0) ∧
      call.endpointsFromArgs = decide (g.Endpoints.length > 0) ∧
      call.fourth = false) ∧
    (PreRunE p configFiles g).2.1.map (fun call => call.configFile) =
      configFiles.take (PreRunE p configFiles g).2.1.length ∧
    ((PreRunE p configFiles g).2.2 = none →
      (PreRunE p configFiles g).2.1.map (fun call => call.configFile) = configFiles) ∧
    ((PreRunE p configFiles g).2.2 ≠ none → (PreRunE p configFiles g).2.1 ≠ []) ∧
    PreRunE p [] g = (g, [], none) ∧
    (∀ later, (PreRunE p configFiles g).2.2 ≠ none →
      PreRunE p (configFiles ++ later) g = PreRunE p configFiles g) ∧
    (∀ file more err g1,
      p file (decide (g.Nodes.length > 0)) (decide (g.Endpoints.length > 0)) false g =
        (g1, some err) →
      PreRunE p (file :: more) g =
        (g1, [⟨file, decide (g.Nodes.length > 0), decide (g.Endpoints.length > 0), false⟩],
         some err)) ∧
    (PreRunE sampleProcess ["a.yaml", "b.yaml"] ⟨[], [], ()⟩).2.1 =
      [⟨"a.yaml", false, false, false⟩, ⟨"b.yaml", false, false, false⟩] ∧
    (PreRunE sampleProcess ["a.yaml", "b.yaml"] ⟨[], [], ()⟩).1.Nodes = ["b.yaml"] := by
  obtain ⟨k, hk, h1, h2, h3⟩ := PreRunE_loop_calls p (decide (g.Nodes.length > 0))
    (decide (g.Endpoints.length > 0)) configFiles g []
  have hcalls : (PreRunE p configFiles g).2.1 =
      (configFiles.take k).map
        (fun f => ⟨f, decide (g.Nodes.length > 0), decide (g.Endpoints.length > 0), false⟩) := by
    simpa [PreRunE] using h1
  have hlen : (PreRunE p configFiles g).2.1.length = k := by
    rw [hcalls, List.length_map, List.length_take, Nat.min_eq_left hk]
  refine ⟨?_, ?_, ?_, ?_, ?_, rfl, ?_, ?_, by decide, by decide⟩
  · have hn : (!g.Nodes.isEmpty) = decide (g.Nodes.length > 0) := by
      cases g.Nodes <;> simp
    have he : (!g.Endpoints.isEmpty) = decide (g.Endpoints.length > 0) := by
      cases g.Endpoints <;> simp
    simp only [PreRunE, PreRunE_reference, hn, he]
    exact PreRunE_loop_eq_foldl p _ _ configFiles g []
  · intro call hcall
    rw [hcalls, List.mem_map] at hcall
    obtain ⟨f, -, rfl⟩ := hcall
    exact ⟨rfl, rfl, rfl⟩
  · rw [hlen, hcalls, List.map_map]
    simp [Function.comp_def]
  · intro hnone
    have hk2 : k = configFiles.length := h2 (by simpa [PreRunE] using hnone)
    rw [hcalls, List.map_map, hk2, List.take_length]
    simp [Function.comp_def]
  · intro hsome hnil
    have hk0 : 0 < k := h3 (by simpa [PreRunE] using hsome)
    rw [hnil] at hlen
    simp only [List.length_nil] at hlen
    omega
  · intro later hsome
    have hfold : ∀ files, PreRunE p files g =
        files.foldl (referenceStep p (decide (g.Nodes.length > 0))
          (decide (g.Endpoints.length > 0))) (g, [], none) :=
      fun files => PreRunE_loop_eq_foldl p _ _ files g []
    rw [hfold (configFiles ++ later), List.foldl_append, ← hfold configFiles]
    rcases hres : PreRunE p configFiles g with ⟨g1, calls, r⟩
    cases r with
    | none => rw [hres] at hsome; exact absurd rfl hsome
    | some err => exact foldl_referenceStep_error p _ _ later g1 calls err
  · intro file more err g1 hp
    simp only [PreRunE, PreRunE.loop, hp, List.nil_append]

end commands

/-! ## Theorems: dispatch over several nodes -/

namespace dispatch

open Go commands

/-- A step keeps the target of a branch. -/
theorem stepBranch_target (env : Env) (onChunk : StreamChunk → Option String)
    (multi c : Bool) (b : Branch) :
    (stepBranch env onChunk multi c b).branch.target = b.target := by
  cases b with
  | finished o => rfl
  | pending t =>
    simp only [stepBranch]
    split
    · rfl
    · split
      · rfl
      · split <;> rfl
  | draining t rest =>
    simp only [stepBranch]
    split
    · rfl
    · split
      · rfl
      · rfl
      · split <;> rfl

/-- A step records an outcome exactly when it finishes the branch, and a finished branch
records nothing more. -/
theorem stepBranch_outcome (env : Env) (onChunk : StreamChunk → Option String)
    (multi c : Bool) (b : Branch) :
    (stepBranch env onChunk multi c b).branch.outcome?.toList =
      b.outcome?.toList ++ (stepBranch env onChunk multi c b).outcomes := by
  cases b with
  | finished o => rfl
  | pending t =>
    simp only [stepBranch]
    split
    · rfl
    · split
      · rfl
      · split <;> rfl
  | draining t rest =>
    simp only [stepBranch]
    split
    · rfl
    · split
      · rfl
      · rfl
      · split <;> rfl

/-- A step keeps a branch on course. -/
theorem stepBranch_OK (env : Env) (onChunk : StreamChunk → Option String)
    (multi c : Bool) (b : Branch) (h : b.OK env onChunk multi c) :
    (stepBranch env onChunk multi c b).branch.OK env onChunk multi c := by
  cases b with
  | finished o => exact h
  | pending t =>
    simp only [stepBranch]
    split
    · next hc => exact Or.inr ⟨hc, rfl⟩
    · split
      · next message ho =>
        refine Or.inl ?_
        simp [finish, soloStatus, ho]
      · next u ho =>
        split
        · next kind message hi =>
          refine Or.inl ?_
          simp [finish, soloStatus, ho, hi]
        · next stream hi =>
          simp [Branch.OK, soloStatus, ho, hi]
  | draining t rest =>
    simp only [stepBranch]
    split
    · next hc => exact Or.inr ⟨hc, rfl⟩
    · split
      · refine Or.inl ?_
        simpa [finish, Branch.OK, drainStatus] using h
      · refine Or.inl ?_
        simpa [finish, Branch.OK, drainStatus] using h
      · next payload more =>
        split
        · next message hm =>
          refine Or.inl ?_
          simpa [finish, Branch.OK, drainStatus, hm] using h
        · next hm =>
          simpa [Branch.OK, drainStatus, hm] using h

/-- A step uses up fuel of a branch that is not finished. -/
theorem stepBranch_fuel (env : Env) (onChunk : StreamChunk → Option String)
    (multi c : Bool) (b : Branch) (h : b.isFinished = false) :
    (stepBranch env onChunk multi c b).branch.fuel env < b.fuel env := by
  cases b with
  | finished o => simp [Branch.isFinished] at h
  | pending t =>
    simp only [stepBranch]
    split
    · simp only [finish, Branch.fuel]
      split <;> omega
    · split
      · simp only [finish, Branch.fuel]
        split <;> omega
      · split
        · next kind message hi =>
          simp [finish, Branch.fuel, hi]
        · next stream hi =>
          simp [Branch.fuel, hi]
  | draining t rest =>
    simp only [stepBranch]
    split
    · simp [finish, Branch.fuel]
    · split
      · simp [finish, Branch.fuel]
      · simp [finish, Branch.fuel]
      · split
        · simp [finish, Branch.fuel]
        · simp [Branch.fuel]

/-- Stepping one position keeps the targets of all branches. -/
theorem stepAt_target (f : Branch → StepResult)
    (hf : ∀ b, (f b).branch.target = b.target) (i : Nat) (bs : List Branch) :
    (stepAt f i bs).1.map Branch.target = bs.map Branch.target := by
  induction bs generalizing i with
  | nil => simp [stepAt]
  | cons b bs ih =>
    cases i with
    | zero => simp [stepAt, hf]
    | succ i => simp [stepAt, ih]

/-- The finished outcomes of a list of branches, head first. -/
theorem filterMap_outcome_cons (b : Branch) (bs : List Branch) :
    (b :: bs).filterMap Branch.outcome? =
      b.outcome?.toList ++ bs.filterMap Branch.outcome? := by
  cases h : b.outcome? <;> simp [List.filterMap_cons, h]

/-- Stepping one position adds to the finished outcomes exactly what the step records. -/
theorem stepAt_outcomes (f : Branch → StepResult)
    (hf : ∀ b, (f b).branch.outcome?.toList = b.outcome?.toList ++ (f b).outcomes)
    (i : Nat) (bs : List Branch) :
    List.Perm ((stepAt f i bs).1.filterMap Branch.outcome?)
      (bs.filterMap Branch.outcome? ++ (stepAt f i bs).2.2.1) := by
  induction bs generalizing i with
  | nil => simp [stepAt]
  | cons b bs ih =>
    cases i with
    | zero =>
      simp only [stepAt, filterMap_outcome_cons, hf, List.append_assoc]
      exact List.Perm.append_left _ List.perm_append_comm
    | succ i =>
      simp only [stepAt, filterMap_outcome_cons, List.append_assoc]
      exact List.Perm.append_left _ (ih i)

/-- Stepping one position keeps a property of branches that a step keeps. -/
theorem stepAt_forall (f : Branch → StepResult) (P : Branch → Prop)
    (hf : ∀ b, P b → P (f b).branch) (i : Nat) (bs : List Branch) (h : ∀ b ∈ bs, P b) :
    ∀ b ∈ (stepAt f i bs).1, P b := by
  induction bs generalizing i with
  | nil => simp [stepAt]
  | cons b bs ih =>
    cases i with
    | zero =>
      intro x hx
      simp only [stepAt, List.mem_cons] at hx
      rcases hx with rfl | hx
      · exact hf b (h b (List.mem_cons_self _ _))
      · exact h x (List.mem_cons_of_mem _ hx)
    | succ i =>
      intro x hx
      simp only [stepAt, List.mem_cons] at hx
      rcases hx with rfl | hx
      · exact h x (List.mem_cons_self _ _)
      · exact ih i (fun y hy => h y (List.mem_cons_of_mem _ hy)) x hx

/-- While some branch is not finished, some position can step and use up fuel. -/
theorem stepAt_fuel (env : Env) (f : Branch → StepResult)
    (hf : ∀ b, b.isFinished = false → (f b).branch.fuel env < b.fuel env)
    (bs : List Branch) (h : bs.all Branch.isFinished = false) :
    ∃ i, totalFuel env (stepAt f i bs).1 < totalFuel env bs := by
  induction bs with
  | nil => simp at h
  | cons b bs ih =>
    cases hb : b.isFinished with
    | false =>
      refine ⟨0, ?_⟩
      have := hf b hb
      simp only [stepAt, totalFuel, List.map_cons, List.sum_cons]
      omega
    | true =>
      have h2 : bs.all Branch.isFinished = false := by
        simpa [List.all_cons, hb] using h
      obtain ⟨i, hi⟩ := ih h2
      refine ⟨i + 1, ?_⟩
      simp only [stepAt, totalFuel, List.map_cons, List.sum_cons] at hi ⊢
      omega

/-- Being on course survives the arrival of a cancellation request. -/
theorem Branch.OK_cancel (env : Env) (onChunk : StreamChunk → Option String)
    (multi c : Bool) (b : Branch) (h : b.OK env onChunk multi c) :
    b.OK env onChunk multi true := by
  cases b with
  | finished o =>
    rcases h with h | ⟨-, h⟩
    · exact Or.inl h
    · exact Or.inr ⟨rfl, h⟩
  | pending t => trivial
  | draining t rest => exact h

/-- The invariant holds at the start of a dispatch. -/
theorem Inv_init (env : Env) (onChunk : StreamChunk → Option String) (multi : Bool)
    (targets : List NodeTarget) : (DState.init targets).Inv env onChunk multi targets := by
  refine ⟨?_, ?_, ?_⟩
  · simp only [DState.init, List.map_map]
    exact List.map_id _
  · have : (targets.map Branch.pending).filterMap Branch.outcome? = [] := by
      induction targets with
      | nil => rfl
      | cons t ts ih => simp [List.filterMap_cons, Branch.outcome?]
    simp only [DState.init, this]
    exact List.Perm.refl _
  · intro b hb
    simp only [DState.init, List.mem_map] at hb
    obtain ⟨t, -, rfl⟩ := hb
    trivial

/-- Every scheduling step keeps the invariant. -/
theorem Inv_tick (env : Env) (onChunk : StreamChunk → Option String) (multi : Bool)
    (targets : List NodeTarget) (s : DState) (k : Tick)
    (h : s.Inv env onChunk multi targets) : (s.tick env onChunk multi k).Inv env onChunk multi targets := by
  obtain ⟨h1, h2, h3⟩ := h
  cases k with
  | cancel =>
    exact ⟨h1, h2, fun b hb => Branch.OK_cancel env onChunk multi _ b (h3 b hb)⟩
  | run i =>
    refine ⟨?_, ?_, ?_⟩
    · simp only [DState.tick]
      rw [stepAt_target _ (stepBranch_target env onChunk multi s.cancelRequested)]
      exact h1
    · simp only [DState.tick]
      exact (List.Perm.append_right _ h2).trans
        (stepAt_outcomes _ (stepBranch_outcome env onChunk multi s.cancelRequested) i
          s.branches).symm
    · simp only [DState.tick]
      exact stepAt_forall _ _ (stepBranch_OK env onChunk multi s.cancelRequested) i
        s.branches h3

/-- Every schedule keeps the invariant. -/
theorem Inv_run (env : Env) (onChunk : StreamChunk → Option String) (multi : Bool)
    (targets : List NodeTarget) (sched : List Tick) (s : DState)
    (h : s.Inv env onChunk multi targets) : (s.run env onChunk multi sched).Inv env onChunk multi targets := by
  induction sched generalizing s with
  | nil => exact h
  | cons k ks ih =>
    simp only [DState.run, List.foldl_cons]
    exact ih _ (Inv_tick env onChunk multi targets s k h)

/-- A schedule without a cancellation request leaves the request flag as it was. -/
theorem run_cancelRequested (env : Env) (onChunk : StreamChunk → Option String)
    (multi : Bool) (sched : List Tick) (s : DState) (h : Tick.cancel ∉ sched) :
    (s.run env onChunk multi sched).cancelRequested = s.cancelRequested := by
  induction sched generalizing s with
  | nil => rfl
  | cons k ks ih =>
    simp only [DState.run, List.foldl_cons]
    have hk : k ≠ Tick.cancel := fun e => h (e ▸ List.mem_cons_self _ _)
    have hks : Tick.cancel ∉ ks := fun e => h (List.mem_cons_of_mem _ e)
    have := ih (s.tick env onChunk multi k) hks
    simp only [DState.run] at this
    rw [this]
    cases k with
    | cancel => exact absurd rfl hk
    | run i => rfl

/-- When all branches are finished their outcomes are for their targets, in order. -/
theorem finished_targets (bs : List Branch) (h : bs.all Branch.isFinished = true) :
    (bs.filterMap Branch.outcome?).map (fun o => o.target) = bs.map Branch.target := by
  induction bs with
  | nil => rfl
  | cons b bs ih =>
    simp only [List.all_cons, Bool.and_eq_true] at h
    cases b with
    | finished o =>
      simp only [filterMap_outcome_cons, Branch.outcome?, Option.toList, List.singleton_append,
        List.map_cons, Branch.target, ih h.2]
    | pending t => simp [Branch.isFinished] at h
    | draining t rest => simp [Branch.isFinished] at h

/-- When all branches are finished, on course and no cancellation was requested, their
outcomes are the ones each target gets on its own. -/
theorem finished_solo (env : Env) (onChunk : StreamChunk → Option String) (multi : Bool)
    (bs : List Branch) (h : bs.all Branch.isFinished = true)
    (hok : ∀ b ∈ bs, b.OK env onChunk multi false) :
    bs.filterMap Branch.outcome? =
      (bs.map Branch.target).map (fun t => ⟨t, soloStatus env onChunk multi t⟩) := by
  induction bs with
  | nil => rfl
  | cons b bs ih =>
    simp only [List.all_cons, Bool.and_eq_true] at h
    have ih2 := ih h.2 (fun x hx => hok x (List.mem_cons_of_mem _ hx))
    cases b with
    | finished o =>
      have hb := hok _ (List.mem_cons_self _ _)
      simp only [Branch.OK, Bool.false_eq_true, false_and, or_false] at hb
      simp only [filterMap_outcome_cons, Branch.outcome?, Option.toList, List.singleton_append,
        List.map_cons, Branch.target, ih2, ← hb]
    | pending t => simp [Branch.isFinished] at h
    | draining t rest => simp [Branch.isFinished] at h

/-- From every state some continuation of the schedule that only runs branches (it
requests no cancellation) finishes all branches. -/
theorem exists_completion (env : Env) (onChunk : StreamChunk → Option String) (multi : Bool)
    (n : Nat) : ∀ s : DState, totalFuel env s.branches ≤ n →
    ∃ ext, Tick.cancel ∉ ext ∧
      (s.run env onChunk multi ext).branches.all Branch.isFinished = true := by
  induction n with
  | zero =>
    intro s hs
    refine ⟨[], List.not_mem_nil _, ?_⟩
    cases hall : s.branches.all Branch.isFinished with
    | true => exact hall
    | false =>
      obtain ⟨i, hi⟩ := stepAt_fuel env _
        (stepBranch_fuel env onChunk multi s.cancelRequested) s.branches hall
      omega
  | succ n ih =>
    intro s hs
    cases hall : s.branches.all Branch.isFinished with
    | true => exact ⟨[], List.not_mem_nil _, hall⟩
    | false =>
      obtain ⟨i, hi⟩ := stepAt_fuel env _
        (stepBranch_fuel env onChunk multi s.cancelRequested) s.branches hall
      obtain ⟨ext, hfree, hext⟩ := ih (s.tick env onChunk multi (.run i)) (by
        simp only [DState.tick]
        omega)
      refine ⟨.run i :: ext, ?_, by simpa [DState.run] using hext⟩
      intro hmem
      rcases List.mem_cons.1 hmem with h0 | h0
      · exact Tick.noConfusion h0
      · exact hfree h0

/-- Every schedule has a continuation that only runs branches and completes the dispatch. -/
theorem Dispatch_completes (env : Env) (onChunk : StreamChunk → Option String)
    (targets : List NodeTarget) (sched : List Tick) :
    ∃ ext r, Tick.cancel ∉ ext ∧ Dispatch env onChunk targets (sched ++ ext) = some r := by
  obtain ⟨ext, hfree, hext⟩ := exists_completion env onChunk (decide (targets.length > 1)) _
    (DState.run env onChunk (decide (targets.length > 1)) sched (DState.init targets))
    (le_refl _)
  have hrun : DState.run env onChunk (decide (targets.length > 1)) (sched ++ ext)
      (DState.init targets) =
      DState.run env onChunk (decide (targets.length > 1)) ext
        (DState.run env onChunk (decide (targets.length > 1)) sched (DState.init targets)) := by
    simp only [DState.run, List.foldl_append]
  refine ⟨ext, ?_⟩
  simp only [Dispatch, hrun, hext, if_true]
  exact ⟨_, hfree, rfl⟩

/-- What a completed dispatch hands back, in terms of the state it stopped in. -/
theorem Dispatch_some (env : Env) (onChunk : StreamChunk → Option String)
    (targets : List NodeTarget) (sched : List Tick) (r : DispatchResult)
    (h : Dispatch env onChunk targets sched = some r) :
    (DState.run env onChunk (decide (targets.length > 1)) sched
        (DState.init targets)).branches.all Branch.isFinished = true ∧
    r.outcomes =
      (DState.run env onChunk (decide (targets.length > 1)) sched (DState.init targets)).outcomes := by
  simp only [Dispatch] at h
  split at h
  · next hall =>
    simp only [Option.some.injEq] at h
    exact ⟨hall, by rw [← h]⟩
  · simp at h

/-- The outcomes of a completed dispatch are for the targets, one each. -/
theorem Dispatch_outcome_targets (env : Env) (onChunk : StreamChunk → Option String)
    (targets : List NodeTarget) (sched : List Tick) (r : DispatchResult)
    (h : Dispatch env onChunk targets sched = some r) :
    List.Perm (r.outcomes.map (fun o => o.target)) targets := by
  obtain ⟨hall, hr⟩ := Dispatch_some env onChunk targets sched r h
  obtain ⟨h1, h2, -⟩ := Inv_run env onChunk (decide (targets.length > 1)) targets sched _
    (Inv_init env onChunk _ targets)
  rw [hr]
  have := List.Perm.map (fun o : DispatchOutcome => o.target) h2
  rw [finished_targets _ hall, h1] at this
  exact this

/-- Without cancellation the outcomes of a completed dispatch are, up to order, the ones
each target gets on its own. -/
theorem Dispatch_outcome_solo (env : Env) (onChunk : StreamChunk → Option String)
    (targets : List NodeTarget) (sched : List Tick) (r : DispatchResult)
    (h : Dispatch env onChunk targets sched = some r) (hc : Tick.cancel ∉ sched) :
    List.Perm r.outcomes
      (targets.map
        (fun t => ⟨t, soloStatus env onChunk (decide (targets.length > 1)) t⟩)) := by
  obtain ⟨hall, hr⟩ := Dispatch_some env onChunk targets sched r h
  obtain ⟨h1, h2, h3⟩ := Inv_run env onChunk (decide (targets.length > 1)) targets sched _
    (Inv_init env onChunk _ targets)
  have hflag := run_cancelRequested env onChunk (decide (targets.length > 1)) sched
    (DState.init targets) hc
  rw [hflag] at h3
  rw [hr]
  have := finished_solo env onChunk (decide (targets.length > 1)) _ hall h3
  rw [h1] at this
  rw [← this]
  exact h2

/-- The status a target gets on its own depends on nothing but that target's own
connection and stream. -/
theorem soloStatus_congr (env env2 : Env) (onChunk : StreamChunk → Option String)
    (multi : Bool) (t : NodeTarget) (ho : env2.Open t = env.Open t)
    (hi : env2.invoke t = env.invoke t) :
    soloStatus env2 onChunk multi t = soloStatus env onChunk multi t := by
  simp only [soloStatus, ho, hi]

/-- Without cancellation every target that fails to connect has its ConnectionError among
the outcomes of a completed dispatch. -/
theorem Dispatch_connection_errors (env : Env) (onChunk : StreamChunk → Option String)
    (targets : List NodeTarget) (sched : List Tick) (r : DispatchResult)
    (h : Dispatch env onChunk targets sched = some r) (hc : Tick.cancel ∉ sched)
    (t : NodeTarget) (ht : t ∈ targets) (message : String)
    (ho : env.Open t = .error message) :
    (⟨t, .failure .ConnectionError message⟩ : DispatchOutcome) ∈ r.outcomes := by
  apply (Dispatch_outcome_solo env onChunk targets sched r h hc).symm.subset
  rw [List.mem_map]
  exact ⟨t, ht, by simp only [soloStatus, ho]⟩

/-- C8: in the dispatcher the specification describes, for every environment (so for
every number `k` of targets that fail to connect), every handler and every list of `N`
targets.  (1) Every schedule can be continued, by running branches only and without any
cancellation request, to a completed dispatch.  (2) A completed dispatch without
cancellation exists, and it yields exactly `N` outcomes: up to order the outcome each
target gets on its own, with the ConnectionError of every target that fails to connect
among them.  (3) Every completed dispatch, cancelled or not, yields exactly `N` outcomes,
one for each target; without cancellation these are, up to order, the outcomes each target
gets on its own, the ConnectionError of every failing target included.  (4) Changing the
behaviour of the other targets (another environment, another interleaving) leaves the
outcome of a target in the result unchanged.  (5) In the sample dispatch over the healthy
node `a` and the refusing node `b` (`N = 2`, `k = 1`), with `b` scheduled first, the
result holds the two chunks of `a` in order and exactly two outcomes: the ConnectionError
of `b` and the success of `a`. -/
theorem C8_dispatch_yields_one_outcome_per_target (env : Env)
    (onChunk : StreamChunk → Option String) (targets : List NodeTarget) :
    (∀ sched, ∃ ext r,
      Tick.cancel ∉ ext ∧ Dispatch env onChunk targets (sched ++ ext) = some r) ∧
    (∃ sched r,
      Tick.cancel ∉ sched ∧ Dispatch env onChunk targets sched = some r ∧
      r.outcomes.length = targets.length ∧
      List.Perm (r.outcomes.map (fun o => o.target)) targets ∧
      List.Perm r.outcomes
        (targets.map
          (fun t => ⟨t, soloStatus env onChunk (decide (targets.length > 1)) t⟩)) ∧
      (∀ t ∈ targets, ∀ message, env.Open t = .error message →
        (⟨t, .failure .ConnectionError message⟩ : DispatchOutcome) ∈ r.outcomes)) ∧
    (∀ sched r, Dispatch env onChunk targets sched = some r →
      r.outcomes.length = targets.length ∧
      List.Perm (r.outcomes.map (fun o => o.target)) targets ∧
      (Tick.cancel ∉ sched →
        List.Perm r.outcomes
          (targets.map
            (fun t => ⟨t, soloStatus env onChunk (decide (targets.length > 1)) t⟩)) ∧
        (∀ t ∈ targets, ∀ message, env.Open t = .error message →
          (⟨t, .failure .ConnectionError message⟩ : DispatchOutcome) ∈ r.outcomes))) ∧
    (∀ t message multi, env.Open t = .error message →
      soloStatus env onChunk multi t = .failure .ConnectionError message) ∧
    (∀ (env2 : Env) sched sched2 r r2,
      Dispatch env onChunk targets sched = some r →
      Dispatch env2 onChunk targets sched2 = some r2 →
      Tick.cancel ∉ sched → Tick.cancel ∉ sched2 →
      ∀ o ∈ r.outcomes,
        env2.Open o.target = env.Open o.target →
        env2.invoke o.target = env.invoke o.target →
        o ∈ r2.outcomes) ∧
    Dispatch sampleEnv dmesgOnChunk [⟨"1", "a"⟩, ⟨"2", "b"⟩]
        [.run 1, .run 0, .run 0, .run 0, .run 0] =
      some ⟨[⟨⟨none, some [49]⟩, ⟨"1", "a"⟩, true⟩, ⟨⟨none, some [50]⟩, ⟨"1", "a"⟩, true⟩],
            [⟨⟨"2", "b"⟩, .failure .ConnectionError "connection refused"⟩,
             ⟨⟨"1", "a"⟩, .success⟩],
            [⟨"1", "a"⟩]⟩ := by
  have hlen : ∀ sched r, Dispatch env onChunk targets sched = some r →
      r.outcomes.length = targets.length := by
    intro sched r h
    have := (Dispatch_outcome_targets env onChunk targets sched r h).length_eq
    simpa using this
  refine ⟨Dispatch_completes env onChunk targets, ?_, ?_, ?_, ?_, by decide⟩
  · obtain ⟨ext, r, hfree, h⟩ := Dispatch_completes env onChunk targets []
    rw [List.nil_append] at h
    exact ⟨ext, r, hfree, h, hlen ext r h,
      Dispatch_outcome_targets env onChunk targets ext r h,
      Dispatch_outcome_solo env onChunk targets ext r h hfree,
      fun t ht message ho =>
        Dispatch_connection_errors env onChunk targets ext r h hfree t ht message ho⟩
  · intro sched r h
    exact ⟨hlen sched r h, Dispatch_outcome_targets env onChunk targets sched r h,
      fun hc => ⟨Dispatch_outcome_solo env onChunk targets sched r h hc,
        fun t ht message ho =>
          Dispatch_connection_errors env onChunk targets sched r h hc t ht message ho⟩⟩
  · intro t message multi h
    simp only [soloStatus, h]
  · intro env2 sched sched2 r r2 h h2 hc hc2 o ho hopen hinvoke
    have hmem := (Dispatch_outcome_solo env onChunk targets sched r h hc).subset ho
    rw [List.mem_map] at hmem
    obtain ⟨t, ht, rfl⟩ := hmem
    apply (Dispatch_outcome_solo env2 onChunk targets sched2 r2 h2 hc2).symm.subset
    rw [List.mem_map]
    exact ⟨t, ht, by
      rw [soloStatus_congr env env2 onChunk _ t hopen hinvoke]⟩

end dispatch
